import Mathlib

/-!
Shallow embedding of the `gix` terminal tool: branch-state resolution
(`src/branch.rs`) and the interactive selection loop (`src/main.rs`).
Strings are embedded as `List Char`; the git repository is an explicit
collaborator model whose answers (ref enumeration, commit resolution,
tracking configuration, upstream resolution) are data, and the fallible
Rust calls are embedded as `Except`/`Option` values.  `usize` subtraction,
which panics on underflow in Rust debug builds, is embedded as a partial
operation returning `Option Nat`.
-/

namespace Gix

/-- Prefix test on character lists: `prefix_chk needle hay` is true iff
`needle` is an initial segment of `hay`.  This is the elementary step of
the substring search performed by Rust's `str::contains`. -/
def prefix_chk : List Char → List Char → Bool
  | [], _ => true
  | _ :: _, [] => false
  | a :: as, b :: bs => (a == b) && prefix_chk as bs

/-- Substring test, the model of Rust's `str::contains`: true iff `needle`
occurs contiguously inside `hay`.  An empty `needle` is contained in every
`hay`, exactly as in Rust. -/
def contains_sub (hay needle : List Char) : Bool :=
  match hay with
  | [] => prefix_chk needle []
  | c :: t => prefix_chk needle (c :: t) || contains_sub t needle

/-- Character-wise lowercasing, the model of `str::to_lowercase` as used by
the branch filter (the embedding maps each character through
`Char.toLower`). -/
def to_lower (s : List Char) : List Char := s.map Char.toLower

/-- One row of branch state, the Lean image of `struct BranchItem` in
`src/branch.rs`. -/
structure BranchItem where
  name : List Char
  oid : List Char
  summary : List Char
  is_head : Bool
  has_upstream : Bool
  is_gone : Bool
  deriving DecidableEq

/-- First seven characters of the commit id (`BranchItem::short_oid`). -/
def short_oid (b : BranchItem) : List Char := b.oid.take 7

/-- The filter predicate of `render_branches` (src/main.rs lines 157-164):
case-insensitive substring match of the search string against the branch
name.  The source's `if state.search_string.is_empty() { true; }` statement
discards its value, so the closure's result is the `contains` test alone;
behaviour is unchanged because `contains` with an empty needle is always
true. -/
def branch_matches (search : List Char) (b : BranchItem) : Bool :=
  contains_sub (to_lower b.name) (to_lower search)

/-- Recomputation of the visible branch list in `render_branches`:
`query_branches(..).filter(..)`, order preserved. -/
def filter_branches (branches : List BranchItem) (search : List Char) : List BranchItem :=
  branches.filter (branch_matches search)

/-- Partial `usize` subtraction: `none` models the Rust panic (debug-build
overflow check) when the subtrahend exceeds the minuend. -/
def usize_sub (a b : Nat) : Option Nat := if b ≤ a then some (a - b) else none

/-- The selected-row clamp of `render_branches` (src/main.rs lines 167-169):
`if selected_row > branches.len() { selected_row = branches.len() - 1 }`.
The subtraction is the partial `usize` one, so the result is `none` when
`branches.len()` is `0` and the guard fires. -/
def clamp_selected (sel len : Nat) : Option Nat :=
  if len < sel then usize_sub len 1 else some sel

/-- The error codes the resolver distinguishes: `git2::ErrorCode::NotFound`
against every other code. -/
inductive ErrorCode
  | notFound
  | other
  deriving DecidableEq

/-- Commit metadata the resolver reads: the full id and the optional first
summary line (`Commit::summary` returns an `Option`). -/
structure CommitInfo where
  id : List Char
  summary : Option (List Char)
  deriving DecidableEq

/-- One raw branch ref as the repository collaborator hands it to
`parse_branches`: the fallible name (`Branch::name`, whose `Ok` payload is
itself optional), the optional peeled commit (`peel_to_commit().ok()`), the
optional config table (`repo.config().ok()`, a key-to-value map standing
for `Config::get_string`), the fallible upstream resolution
(`Branch::upstream`), and the head flag. -/
structure RawBranch where
  nameRes : Except Unit (Option (List Char))
  commitRes : Option CommitInfo
  config : Option (List Char → Option (List Char))
  upstreamRes : Except ErrorCode Unit
  is_head : Bool

/-- `git2::BranchType`. -/
inductive BranchType
  | Local
  | Remote
  deriving DecidableEq

/-- `enum BranchQuery` of src/branch.rs. -/
inductive BranchQuery
  | Local
  | Remote
  | LocalAndRemote
  deriving DecidableEq

/-- Rust's `str::split_once`: splits at the first occurrence of `sep`,
returning the parts before and after it, or `none` when `sep` is absent. -/
def split_once : List Char → Char → Option (List Char × List Char)
  | [], _ => none
  | c :: rest, sep =>
    if c = sep then some ([], rest)
    else
      match split_once rest sep with
      | some (l, r) => some (c :: l, r)
      | none => none

/-- Name formatting of `parse_branches` (src/branch.rs lines 34-38): for a
remote ref the name is split at the first `/` and reassembled as
`"{remote}/{branch_name}"`. -/
def resolved_name (bt : BranchType) (raw : List Char) : List Char :=
  if bt = BranchType.Remote then
    match split_once raw '/' with
    | some (remote, rest) => remote ++ '/' :: rest
    | none => raw
  else raw

/-- The config key `branch.<name>.remote`. -/
def remote_key (name : List Char) : List Char :=
  "branch.".toList ++ name ++ ".remote".toList

/-- The config key `branch.<name>.merge`. -/
def merge_key (name : List Char) : List Char :=
  "branch.".toList ++ name ++ ".merge".toList

/-- `has_cfg` of src/branch.rs lines 50-56: the config opened successfully
and both tracking keys read as strings. -/
def has_cfg (rb : RawBranch) (name : List Char) : Bool :=
  match rb.config with
  | some cfg => (cfg (remote_key name)).isSome && (cfg (merge_key name)).isSome
  | none => false

/-- `upstream_res.is_ok()` (src/branch.rs line 59). -/
def has_upstream_of (rb : RawBranch) : Bool :=
  match rb.upstreamRes with
  | .ok _ => true
  | .error _ => false

/-- The second conjunct of `is_gone` (src/branch.rs lines 60-64):
`matches!(upstream_res.err().map(|e| e.code()), Some(ErrorCode::NotFound))`. -/
def gone_chk (rb : RawBranch) : Bool :=
  match rb.upstreamRes with
  | .error ErrorCode.notFound => true
  | _ => false

/-- `is_gone = has_cfg && <upstream failed with NotFound>`. -/
def is_gone_of (rb : RawBranch) (name : List Char) : Bool :=
  has_cfg rb name && gone_chk rb

/-- The `BranchItem` pushed for one raw branch whose name resolved
(src/branch.rs lines 32-73): the `None` name defaults to the empty string
(`unwrap_or_default`), a failed commit resolution leaves `oid` and
`summary` empty, and the upstream/gone fields are as computed above. -/
def mk_branch_item (bt : BranchType) (rb : RawBranch) (nameOpt : Option (List Char)) :
    BranchItem :=
  let name := resolved_name bt (nameOpt.getD [])
  { name := name
    oid := match rb.commitRes with | some c => c.id | none => []
    summary := match rb.commitRes with | some c => c.summary.getD [] | none => []
    is_head := rb.is_head
    has_upstream := has_upstream_of rb
    is_gone := is_gone_of rb name }

/-- `parse_branches`: the `while let Some(Ok((branch, _))) = branches.next()`
loop stops at the first errored iterator item, skips a branch whose name
lookup fails (`if let Ok(name_opt)`), and otherwise pushes one item. -/
def parse_branches : List (Except Unit RawBranch) → BranchType → List BranchItem
  | [], _ => []
  | .error _ :: _, _ => []
  | .ok rb :: rest, bt =>
    match rb.nameRes with
    | .error _ => parse_branches rest bt
    | .ok nameOpt => mk_branch_item bt rb nameOpt :: parse_branches rest bt

/-- The repository collaborator as `query_branches` consumes it: the
fallible local and remote ref enumerations (`repo.branches(..)`). -/
structure RepoModel where
  localRes : Except Unit (List (Except Unit RawBranch))
  remoteRes : Except Unit (List (Except Unit RawBranch))

/-- `query_branches` (src/branch.rs lines 78-103): a failed enumeration
contributes nothing (`if let Ok(branches)`), and under `LocalAndRemote` the
local items come first. -/
def query_branches (repo : RepoModel) (q : BranchQuery) : List BranchItem :=
  match q with
  | .Local =>
    match repo.localRes with
    | .ok entries => parse_branches entries BranchType.Local
    | .error _ => []
  | .Remote =>
    match repo.remoteRes with
    | .ok entries => parse_branches entries BranchType.Remote
    | .error _ => []
  | .LocalAndRemote =>
    (match repo.localRes with
      | .ok entries => parse_branches entries BranchType.Local
      | .error _ => []) ++
    (match repo.remoteRes with
      | .ok entries => parse_branches entries BranchType.Remote
      | .error _ => [])

/-- The state-mutating prefix of `render_branches` (src/main.rs lines
155-169): rebuild the visible list by query-then-filter, then clamp the
selected row; `none` is the `usize` underflow panic of the clamp. -/
def refresh_branches (repo : RepoModel) (q : BranchQuery) (search : List Char) (sel : Nat) :
    Option (List BranchItem × Nat) :=
  let branches := filter_branches (query_branches repo q) search
  match clamp_selected sel branches.length with
  | some sel2 => some (branches, sel2)
  | none => none

/-- Key modifiers as the handler distinguishes them: `control` stands for a
modifier set exactly equal to `KeyModifiers::CONTROL` (the only value the
Ctrl+C pattern of `handle_branch_event` accepts), `none` for the empty set,
`other` for every other set. -/
inductive Mods
  | none
  | control
  | other
  deriving DecidableEq

/-- The `crossterm::event::KeyCode` constructors the program inspects; every
other code is `otherKey`. -/
inductive KeyCode
  | char (c : Char)
  | backspace
  | esc
  | enter
  | otherKey
  deriving DecidableEq

/-- A key event: code, modifiers, and whether its kind is
`KeyEventKind::Press` (only the search-mode handler checks the kind). -/
structure KeyEvent where
  code : KeyCode
  mods : Mods
  press : Bool
  deriving DecidableEq

/-- The `crossterm::event::Event` constructors the program inspects. -/
inductive Event
  | key (k : KeyEvent)
  | resize (w h : Nat)
  deriving DecidableEq

/-- The mutable interactive state: the fields of `struct State` the event
loop reads and writes, together with the loop-local flags `do_run`,
`do_render`, `do_search` of `main`. -/
structure UiState where
  branches : List BranchItem
  selected_row : Nat
  search_string : List Char
  branch_query : BranchQuery
  do_run : Bool
  do_render : Bool
  do_search : Bool
  deriving DecidableEq

/-- Body of the guarded `'k'` arm (src/main.rs lines 290-303): wrap to `0`
from the last row, otherwise increment.  Callers establish `n ≠ 0`, as the
source's `if n_branches != 0` guard does. -/
def move_next (sel n : Nat) : Nat := if sel = n - 1 then 0 else sel + 1

/-- Body of the guarded `'j'` arm (src/main.rs lines 304-317): wrap to the
last row from `0`, otherwise decrement.  Callers establish `n ≠ 0`. -/
def move_prev (sel n : Nat) : Nat := if sel = 0 then n - 1 else sel - 1

/-- The `'r'` arm's scope rotation (src/main.rs lines 341-345). -/
def cycle_scope : BranchQuery → BranchQuery
  | .Local => .LocalAndRemote
  | .LocalAndRemote => .Remote
  | .Remote => .Local

/-- `handle_branch_event` (src/main.rs lines 267-351).  The `'l'` arm's call
into the repository collaborator (`checkout_branch(..).unwrap()`) is a side
effect outside this state; on the `UiState` itself the arm only requests a
re-render when the list is non-empty.  The quit arms do not inspect the
event kind, exactly as in the source. -/
def handle_branch_event (s : UiState) (e : Event) : UiState :=
  match e with
  | .key k =>
    match k.code, k.mods with
    | .char 'q', _ => { s with do_run := false }
    | .char 'c', .control => { s with do_run := false }
    | .esc, _ => { s with do_run := false }
    | .char 'k', _ =>
      let n := s.branches.length
      if n ≠ 0 then
        { s with selected_row := move_next s.selected_row n, do_render := true }
      else s
    | .char 'j', _ =>
      let n := s.branches.length
      if n ≠ 0 then
        { s with selected_row := move_prev s.selected_row n, do_render := true }
      else s
    | .char 'l', _ =>
      if s.branches.length ≠ 0 then { s with do_render := true } else s
    | .char '/', _ => { s with do_search := true, do_render := true }
    | .char 'r', _ => { s with branch_query := cycle_scope s.branch_query, do_render := true }
    | _, _ => s
  | .resize _ _ => { s with do_render := true }

/-- The search-mode half of the event loop (src/main.rs lines 103-122): only
`Press` key events are handled; a printable character is appended, backspace
pops, escape clears the string and leaves search mode, enter leaves search
mode keeping the string; every handled press requests a re-render.  Non-key
events fall through untouched. -/
def search_mode_step (s : UiState) (e : Event) : UiState :=
  match e with
  | .key k =>
    if k.press then
      let s1 :=
        match k.code with
        | .char c => { s with search_string := s.search_string ++ [c] }
        | .backspace => { s with search_string := s.search_string.dropLast }
        | .esc => { s with search_string := [], do_search := false }
        | .enter => { s with do_search := false }
        | .otherKey => s
      { s1 with do_render := true }
    else s
  | _ => s

/-- One dispatch of the event loop (src/main.rs lines 102-132): search mode
takes the event when `do_search` is set, otherwise `handle_branch_event`
does. -/
def step_event (s : UiState) (e : Event) : UiState :=
  if s.do_search then search_mode_step s e else handle_branch_event s e

/-- A plain press of a printable key, no modifiers. -/
def key_event (c : Char) : Event :=
  Event.key { code := KeyCode.char c, mods := Mods.none, press := true }

/-- A plain press of escape. -/
def esc_event : Event :=
  Event.key { code := KeyCode.esc, mods := Mods.none, press := true }

/-- Ctrl+C as the terminal delivers it in raw mode: a press of `'c'` with
the control modifier. -/
def ctrl_c_event : Event :=
  Event.key { code := KeyCode.char 'c', mods := Mods.control, press := true }

deriving instance DecidableEq for Except

/-- A local branch ref as `checkout_branch` uses it: the fallible peel to a
commit and the optional full ref name (`Reference::name`). -/
structure RefInfo where
  ref_name : Option (List Char)
  peel : Except Unit (List Char)
  deriving DecidableEq

/-- The repository as `checkout_branch` touches it: the local branch table
(`find_branch(name, BranchType::Local)` consults only this), the current
head, an abstract working tree (the commit it reflects), and whether the
collaborator's `checkout_tree` and `set_head` calls succeed. -/
structure GitRepo where
  locals : List (List Char × RefInfo)
  head : Option (List Char)
  worktree : List Char
  checkout_ok : Bool
  set_head_ok : Bool
  deriving DecidableEq

/-- `repo.find_branch(name, BranchType::Local)`: a lookup among local
branches only. -/
def find_branch (repo : GitRepo) (name : List Char) : Except Unit RefInfo :=
  match repo.locals.lookup name with
  | some r => Except.ok r
  | none => Except.error ()

/-- `checkout_branch` (src/branch.rs lines 105-119) as a state transition:
each `?` returns the error with the repository so far; `checkout_tree` runs
before `set_head`, so a later failure leaves the working tree already
moved, while an early failure (in particular an unknown local branch name)
leaves the state untouched. -/
def checkout_branch (repo : GitRepo) (name : List Char) : Except Unit Unit × GitRepo :=
  match find_branch repo name with
  | .error e => (.error e, repo)
  | .ok r =>
    match r.peel with
    | .error e => (.error e, repo)
    | .ok commit =>
      if repo.checkout_ok then
        let repo1 := { repo with worktree := commit }
        match r.ref_name with
        | none => (.error (), repo1)
        | some rn =>
          if repo1.set_head_ok then (.ok (), { repo1 with head := some rn })
          else (.error (), repo1)
      else (.error (), repo)

/-- A branch row with the given name and every other field at its default,
for concrete filtering scenarios. -/
def plain_item (s : String) : BranchItem :=
  { name := s.toList, oid := [], summary := [], is_head := false,
    has_upstream := false, is_gone := false }

/-- The branch list of the spec's filtering scenario. -/
def demo_items : List BranchItem :=
  [plain_item "feature-x", plain_item "hotfix-1", plain_item "feature-y"]

/-- A raw local branch with the given name, no commit, no tracking
configuration, and an upstream failure that is not `NotFound`. -/
def plain_raw (s : String) : RawBranch :=
  { nameRes := Except.ok (some s.toList), commitRes := none, config := none,
    upstreamRes := Except.error ErrorCode.other, is_head := false }

/-- A repository whose local enumeration yields the three scenario branches
and whose remote enumeration fails. -/
def demo_repo : RepoModel :=
  { localRes := Except.ok
      [Except.ok (plain_raw "feature-x"), Except.ok (plain_raw "hotfix-1"),
       Except.ok (plain_raw "feature-y")],
    remoteRes := Except.error () }

/-- The visible list `demo_repo` produces under search string `"feat"`. -/
def demo_visible : List BranchItem :=
  filter_branches (query_branches demo_repo BranchQuery.Local) "feat".toList

/-- A raw branch with both tracking keys present and a resolvable
upstream. -/
def rb_tracked : RawBranch :=
  { nameRes := Except.ok (some "main".toList), commitRes := none,
    config := some (fun _ => some []), upstreamRes := Except.ok (), is_head := true }

/-- A raw branch with both tracking keys present whose upstream resolution
fails with `NotFound`: the configured remote branch no longer exists. -/
def rb_gone : RawBranch :=
  { nameRes := Except.ok (some "old-feature".toList), commitRes := none,
    config := some (fun _ => some []),
    upstreamRes := Except.error ErrorCode.notFound, is_head := false }

/-- A repository whose only local branch is the gone one. -/
def repo_gone : RepoModel :=
  { localRes := Except.ok [Except.ok rb_gone], remoteRes := Except.error () }

/-- The item the resolver emits for `rb_gone`. -/
def item_gone : BranchItem :=
  mk_branch_item BranchType.Local rb_gone (some "old-feature".toList)

/-- An interactive state sitting in search mode with the loop running. -/
def ui_searching : UiState :=
  { branches := [], selected_row := 0, search_string := [],
    branch_query := BranchQuery.Local, do_run := true, do_render := false,
    do_search := true }

/-- An interactive state sitting in browsing mode with the loop running and
an empty visible list. -/
def ui_browsing : UiState :=
  { branches := [], selected_row := 0, search_string := [],
    branch_query := BranchQuery.Local, do_run := true, do_render := false,
    do_search := false }

/-- A repository with a single local branch `main`, for checkout
scenarios. -/
def demo_git_repo : GitRepo :=
  { locals := [("main".toList,
      { ref_name := some "refs/heads/main".toList, peel := Except.ok "abc1234".toList })],
    head := some "refs/heads/main".toList, worktree := [],
    checkout_ok := true, set_head_ok := true }

theorem prefix_chk_iff : ∀ (needle hay : List Char),
    prefix_chk needle hay = true ↔ ∃ post, hay = needle ++ post := by
  intro needle
  induction needle with
  | nil =>
    intro hay
    simp [prefix_chk]
  | cons a as ih =>
    intro hay
    cases hay with
    | nil =>
      simp only [prefix_chk]
      constructor
      · intro h
        cases h
      · rintro ⟨post, h⟩
        exact List.noConfusion h
    | cons b bs =>
      simp only [prefix_chk, Bool.and_eq_true, beq_iff_eq, ih, List.cons_append]
      constructor
      · rintro ⟨rfl, post, rfl⟩
        exact ⟨post, rfl⟩
      · rintro ⟨post, h⟩
        rw [List.cons.injEq] at h
        exact ⟨h.1.symm, post, h.2⟩

theorem contains_sub_iff : ∀ (hay needle : List Char),
    contains_sub hay needle = true ↔ ∃ pre post, hay = pre ++ needle ++ post := by
  intro hay
  induction hay with
  | nil =>
    intro needle
    simp only [contains_sub, prefix_chk_iff]
    constructor
    · rintro ⟨post, h⟩
      exact ⟨[], post, h⟩
    · rintro ⟨pre, post, h⟩
      rcases List.append_eq_nil.mp h.symm with ⟨h1, hpost⟩
      rcases List.append_eq_nil.mp h1 with ⟨hpre, hneedle⟩
      exact ⟨[], by simp [hneedle]⟩
  | cons c t ih =>
    intro needle
    simp only [contains_sub, Bool.or_eq_true, prefix_chk_iff, ih]
    constructor
    · rintro (⟨post, h⟩ | ⟨pre, post, h⟩)
      · exact ⟨[], post, by simpa using h⟩
      · exact ⟨c :: pre, post, by simp [h]⟩
    · rintro ⟨pre, post, h⟩
      cases pre with
      | nil =>
        exact Or.inl ⟨post, by simpa using h⟩
      | cons d ds =>
        rw [List.cons_append] at h
        injection h with h1 h2
        exact Or.inr ⟨ds, post, h2⟩

theorem contains_sub_nil (hay : List Char) : contains_sub hay [] = true := by
  cases hay <;> simp [contains_sub, prefix_chk]

/-- Claim C6: the visible list is exactly the branches whose lowercased name
contains the lowercased search string as a contiguous substring, in the
original relative order (the filtered list is a sublist of the full one); an
empty search string keeps every branch; and the `"feat"` scenario over
`feature-x`, `hotfix-1`, `feature-y` yields exactly `feature-x` then
`feature-y`. -/
theorem visible_items_characterization :
    (∀ bs : List BranchItem, filter_branches bs [] = bs) ∧
    (∀ (bs : List BranchItem) (search : List Char) (b : BranchItem),
      b ∈ filter_branches bs search ↔
        b ∈ bs ∧ ∃ pre post, to_lower b.name = pre ++ to_lower search ++ post) ∧
    (∀ (bs : List BranchItem) (search : List Char),
      List.Sublist (filter_branches bs search) bs) ∧
    (filter_branches demo_items ("feat".toList)).map BranchItem.name
      = ["feature-x".toList, "feature-y".toList] := by
  refine ⟨?_, ?_, ?_, ?_⟩
  · intro bs
    apply List.filter_eq_self.mpr
    intro b _
    simpa [branch_matches, to_lower] using contains_sub_nil (to_lower b.name)
  · intro bs search b
    simp only [filter_branches, List.mem_filter, branch_matches, contains_sub_iff]
  · intro bs search
    exact List.filter_sublist bs
  · decide

/-- Claim C1 fails on the code: the clamp of `render_branches` uses a strict
`>` against the new length, so a prior selected row exactly equal to the
shrunk length survives the refresh out of bounds.  Filtering the three
scenario branches with `"feat"` leaves two visible items, yet a prior
selected row of `2` is kept at `2`; the spec's own shrink-to-one scenario
(prior row `2`, one visible item) does clamp to `0`. -/
theorem clamp_misses_equal_length :
    refresh_branches demo_repo BranchQuery.Local ("feat".toList) 2
      = some (demo_visible, 2) ∧
    demo_visible.length = 2 ∧
    clamp_selected 2 1 = some 0 := by
  refine ⟨by decide, by decide, by decide⟩

/-- Claim C2 fails on the code: when a refresh empties the visible list and
the prior selected row is positive, the clamp guard fires and computes
`0usize - 1`, which underflows (a panic in debug builds); the embedding
returns `none` for that refresh instead of an empty-state result. -/
theorem clamp_underflows_on_empty_list :
    refresh_branches demo_repo BranchQuery.Local ("zzz".toList) 1 = none ∧
    usize_sub 0 1 = none := by
  refine ⟨by decide, by decide⟩

theorem iterate_add_mod (n d : Nat) (f : Nat → Nat)
    (hf : ∀ x, x < n → f x = (x + d) % n) :
    ∀ (k x : Nat), x < n → f^[k] x = (x + k * d) % n := by
  intro k
  induction k with
  | zero =>
    intro x hx
    simp [Nat.mod_eq_of_lt hx]
  | succ k ih =>
    intro x hx
    have hn : 0 < n := Nat.lt_of_le_of_lt (Nat.zero_le x) hx
    rw [Function.iterate_succ_apply, hf x hx]
    rw [ih _ (Nat.mod_lt _ hn), Nat.mod_add_mod]
    congr 1
    ring

theorem move_next_eq_mod {n sel : Nat} (h : sel < n) :
    move_next sel n = (sel + 1) % n := by
  have hn : 0 < n := Nat.lt_of_le_of_lt (Nat.zero_le sel) h
  unfold move_next
  by_cases hc : sel = n - 1
  · rw [if_pos hc, hc, Nat.sub_add_cancel hn, Nat.mod_self]
  · rw [if_neg hc, Nat.mod_eq_of_lt (by omega)]

theorem move_prev_eq_mod {n sel : Nat} (h : sel < n) :
    move_prev sel n = (sel + (n - 1)) % n := by
  unfold move_prev
  by_cases hc : sel = 0
  · rw [if_pos hc, hc, Nat.zero_add, Nat.mod_eq_of_lt (by omega)]
  · rw [if_neg hc]
    have he : sel + (n - 1) = n + (sel - 1) := by omega
    rw [he, Nat.add_mod_left, Nat.mod_eq_of_lt (by omega)]

/-- Claim C7: on a non-empty list the selection wraps (next from the last
row lands on `0`, previous from `0` lands on the last row), `n` applications
of next — or of previous — restore any in-bounds row, and on an empty list
the movement keys leave the interactive state untouched. -/
theorem move_selection_wraps : ∀ (n sel : Nat),
    (0 < n → move_next (n - 1) n = 0) ∧
    (0 < n → move_prev 0 n = n - 1) ∧
    (sel < n → (fun i => move_next i n)^[n] sel = sel) ∧
    (sel < n → (fun i => move_prev i n)^[n] sel = sel) ∧
    (∀ s : UiState, s.do_search = false → s.branches = [] →
      step_event s (key_event 'k') = s ∧ step_event s (key_event 'j') = s) := by
  intro n sel
  refine ⟨?_, ?_, ?_, ?_, ?_⟩
  · intro hn
    simp [move_next]
  · intro hn
    simp [move_prev]
  · intro h
    rw [iterate_add_mod n 1 _ (fun x hx => move_next_eq_mod hx) n sel h]
    rw [Nat.mul_one, Nat.add_mod_right, Nat.mod_eq_of_lt h]
  · intro h
    rw [iterate_add_mod n (n - 1) _ (fun x hx => move_prev_eq_mod hx) n sel h]
    rw [Nat.add_mul_mod_self_left, Nat.mod_eq_of_lt h]
  · intro s hs hb
    constructor <;> simp [step_event, hs, handle_branch_event, key_event, hb]

theorem move_selection_wraps_witness :
    move_next 2 3 = 0 ∧
    (fun i => move_next i 3)^[3] 1 = 1 ∧
    (fun i => move_prev i 3)^[3] 1 = 1 ∧
    step_event ui_browsing (key_event 'k') = ui_browsing :=
  ⟨(move_selection_wraps 3 1).1 (by decide),
   (move_selection_wraps 3 1).2.2.1 (by decide),
   (move_selection_wraps 3 1).2.2.2.1 (by decide),
   ((move_selection_wraps 3 1).2.2.2.2 ui_browsing rfl rfl).1⟩

/-- Claim C8: the scope rotates through the fixed cycle
Local → LocalAndRemote → Remote → Local, three applications restore every
scope, one application never fixes a scope, and in browsing mode the `'r'`
key performs exactly this rotation (and requests the re-render that
refreshes the list). -/
theorem cycle_scope_rotation :
    cycle_scope BranchQuery.Local = BranchQuery.LocalAndRemote ∧
    cycle_scope BranchQuery.LocalAndRemote = BranchQuery.Remote ∧
    cycle_scope BranchQuery.Remote = BranchQuery.Local ∧
    (∀ q, cycle_scope (cycle_scope (cycle_scope q)) = q) ∧
    (∀ q, cycle_scope q ≠ q) ∧
    (∀ s : UiState, s.do_search = false →
      step_event s (key_event 'r')
        = { s with branch_query := cycle_scope s.branch_query, do_render := true }) := by
  refine ⟨rfl, rfl, rfl, ?_, ?_, ?_⟩
  · intro q
    cases q <;> rfl
  · intro q h
    cases q <;> exact BranchQuery.noConfusion h
  · intro s hs
    simp [step_event, hs, handle_branch_event, key_event]

theorem cycle_scope_rotation_witness :
    step_event ui_browsing (key_event 'r')
      = { ui_browsing with
          branch_query := cycle_scope ui_browsing.branch_query, do_render := true } :=
  cycle_scope_rotation.2.2.2.2.2 ui_browsing rfl

/-- Claim C4 fails on the code: in search mode none of the quit inputs stops
the loop.  From a running search-mode state, escape cancels the search,
`'q'` is appended to the search string, and Ctrl+C is swallowed by the
`KeyCode::Char(c)` arm as a typed `'c'`; `do_run` stays `true` in all three
cases. -/
theorem searching_quit_keeps_running :
    ui_searching.do_search = true ∧
    (step_event ui_searching esc_event).do_run = true ∧
    (step_event ui_searching (key_event 'q')).do_run = true ∧
    (step_event ui_searching ctrl_c_event).do_run = true ∧
    (step_event ui_searching (key_event 'q')).search_string = ['q'] ∧
    (step_event ui_searching ctrl_c_event).search_string = ['c'] := by
  refine ⟨rfl, rfl, rfl, rfl, rfl, rfl⟩

/-- Claim C4, amended: in browsing mode a quit input — the quit key `'q'`
(any modifiers), Ctrl+C, or escape — terminates the session loop; in search
mode these same inputs never change `do_run`, so the session continues. -/
theorem quit_terminates_only_in_browsing :
    ∀ (s : UiState) (m : Mods) (p : Bool) (e : Event),
      (e = Event.key { code := KeyCode.char 'q', mods := m, press := p } ∨
       e = Event.key { code := KeyCode.char 'c', mods := Mods.control, press := p } ∨
       e = Event.key { code := KeyCode.esc, mods := m, press := p }) →
      (s.do_search = false → (step_event s e).do_run = false) ∧
      (s.do_search = true → (step_event s e).do_run = s.do_run) := by
  intro s m p e he
  rcases he with rfl | rfl | rfl <;>
    cases m <;>
    cases p <;>
    exact ⟨fun hs => by simp [step_event, hs, handle_branch_event, search_mode_step],
           fun hs => by simp [step_event, hs, handle_branch_event, search_mode_step]⟩

theorem quit_terminates_only_in_browsing_witness :
    (step_event ui_browsing (key_event 'q')).do_run = false ∧
    (step_event ui_searching esc_event).do_run = ui_searching.do_run :=
  ⟨(quit_terminates_only_in_browsing ui_browsing Mods.none true (key_event 'q')
      (Or.inl rfl)).1 rfl,
   (quit_terminates_only_in_browsing ui_searching Mods.none true esc_event
      (Or.inr (Or.inr rfl))).2 rfl⟩

/-- Claim C3: for every branch the resolver emits, upstream/gone follows
the three-case rule.  Both keys present and upstream resolved gives
`has_upstream` without `is_gone`; both keys present and a `NotFound`
upstream failure gives `is_gone` without `has_upstream`; keys absent, or
any other upstream failure, gives neither.  The keys-absent case carries a
collaborator-coherence hypothesis — true of libgit2, whose
`git_branch_upstream` derives the upstream from exactly those two config
keys — that upstream resolution cannot succeed when the keys are absent. -/
theorem upstream_gone_three_case_rule :
    ∀ (bt : BranchType) (rb : RawBranch) (rest : List (Except Unit RawBranch))
      (nameOpt : Option (List Char)),
      rb.nameRes = Except.ok nameOpt →
      (parse_branches (Except.ok rb :: rest) bt
        = mk_branch_item bt rb nameOpt :: parse_branches rest bt) ∧
      ((mk_branch_item bt rb nameOpt).has_upstream = has_upstream_of rb ∧
       (mk_branch_item bt rb nameOpt).is_gone
         = is_gone_of rb (resolved_name bt (nameOpt.getD []))) ∧
      (∀ name : List Char,
        (has_cfg rb name = true → rb.upstreamRes = Except.ok () →
          has_upstream_of rb = true ∧ is_gone_of rb name = false) ∧
        (has_cfg rb name = true → rb.upstreamRes = Except.error ErrorCode.notFound →
          has_upstream_of rb = false ∧ is_gone_of rb name = true) ∧
        ((has_cfg rb name = false → rb.upstreamRes ≠ Except.ok ()) →
          (has_cfg rb name = false ∨ rb.upstreamRes = Except.error ErrorCode.other) →
          has_upstream_of rb = false ∧ is_gone_of rb name = false)) := by
  intro bt rb rest nameOpt hname
  refine ⟨by simp [parse_branches, hname], ⟨rfl, rfl⟩, ?_⟩
  intro name
  refine ⟨?_, ?_, ?_⟩
  · intro hcfg hok
    constructor
    · simp [has_upstream_of, hok]
    · simp [is_gone_of, gone_chk, hok]
  · intro hcfg herr
    constructor
    · simp [has_upstream_of, herr]
    · simp [is_gone_of, gone_chk, herr, hcfg]
  · intro hcoh hcase
    rcases hcase with hcfg | herr
    · constructor
      · cases hu : rb.upstreamRes with
        | ok u =>
          cases u
          exact absurd hu (hcoh hcfg)
        | error e => simp [has_upstream_of, hu]
      · simp [is_gone_of, hcfg]
    · constructor
      · simp [has_upstream_of, herr]
      · simp [is_gone_of, gone_chk, herr]

theorem upstream_gone_three_case_rule_witness :
    parse_branches [Except.ok rb_tracked] BranchType.Local
      = [mk_branch_item BranchType.Local rb_tracked (some "main".toList)] ∧
    has_upstream_of rb_tracked = true ∧
    is_gone_of rb_tracked ("main".toList) = false := by
  have h := upstream_gone_three_case_rule BranchType.Local rb_tracked []
    (some ("main".toList)) rfl
  have h2 := (h.2.2 ("main".toList)).1 (by decide) rfl
  exact ⟨h.1, h2.1, h2.2⟩

theorem parse_mem_shape : ∀ (entries : List (Except Unit RawBranch)) (bt : BranchType)
    (item : BranchItem), item ∈ parse_branches entries bt →
    ∃ rb nameOpt, rb.nameRes = Except.ok nameOpt ∧ item = mk_branch_item bt rb nameOpt := by
  intro entries
  induction entries with
  | nil =>
    intro bt item h
    simp [parse_branches] at h
  | cons e rest ih =>
    intro bt item h
    cases e with
    | error u => simp [parse_branches] at h
    | ok rb =>
      cases hn : rb.nameRes with
      | error u =>
        simp only [parse_branches, hn] at h
        exact ih bt item h
      | ok nameOpt =>
        simp only [parse_branches, hn, List.mem_cons] at h
        rcases h with rfl | h
        · exact ⟨rb, nameOpt, hn, rfl⟩
        · exact ih bt item h

theorem mk_item_gone_imp : ∀ (bt : BranchType) (rb : RawBranch)
    (nameOpt : Option (List Char)), (mk_branch_item bt rb nameOpt).is_gone = true →
    (mk_branch_item bt rb nameOpt).has_upstream = false := by
  intro bt rb nameOpt hg
  have hg' : is_gone_of rb (resolved_name bt (nameOpt.getD [])) = true := hg
  show has_upstream_of rb = false
  cases hu : rb.upstreamRes with
  | ok u =>
    exfalso
    simp [is_gone_of, gone_chk, hu] at hg'
  | error e => simp [has_upstream_of, hu]

/-- Claim C5: every `BranchItem` any resolution result contains satisfies
`is_gone → ¬has_upstream`, for every repository and scope; and a branch
with no tracking configuration at all (keys absent, hence nothing for the
upstream resolution to succeed on) gets `is_gone = false` and
`has_upstream = false`. -/
theorem gone_implies_no_upstream :
    (∀ (repo : RepoModel) (q : BranchQuery) (item : BranchItem),
      item ∈ query_branches repo q → item.is_gone = true → item.has_upstream = false) ∧
    (∀ (rb : RawBranch) (name : List Char),
      has_cfg rb name = false → rb.upstreamRes ≠ Except.ok () →
      is_gone_of rb name = false ∧ has_upstream_of rb = false) := by
  constructor
  · intro repo q item hmem hg
    have shape : ∃ (bt : BranchType) (rb : RawBranch) (nameOpt : Option (List Char)),
        item = mk_branch_item bt rb nameOpt := by
      cases q with
      | Local =>
        cases hl : repo.localRes with
        | ok entries =>
          simp only [query_branches, hl] at hmem
          obtain ⟨rb, nameOpt, _, he⟩ := parse_mem_shape entries BranchType.Local item hmem
          exact ⟨BranchType.Local, rb, nameOpt, he⟩
        | error u => simp [query_branches, hl] at hmem
      | Remote =>
        cases hr : repo.remoteRes with
        | ok entries =>
          simp only [query_branches, hr] at hmem
          obtain ⟨rb, nameOpt, _, he⟩ := parse_mem_shape entries BranchType.Remote item hmem
          exact ⟨BranchType.Remote, rb, nameOpt, he⟩
        | error u => simp [query_branches, hr] at hmem
      | LocalAndRemote =>
        simp only [query_branches] at hmem
        rcases List.mem_append.mp hmem with h | h
        · cases hl : repo.localRes with
          | ok entries =>
            rw [hl] at h
            obtain ⟨rb, nameOpt, _, he⟩ := parse_mem_shape entries BranchType.Local item h
            exact ⟨BranchType.Local, rb, nameOpt, he⟩
          | error u => rw [hl] at h; simp at h
        · cases hr : repo.remoteRes with
          | ok entries =>
            rw [hr] at h
            obtain ⟨rb, nameOpt, _, he⟩ := parse_mem_shape entries BranchType.Remote item h
            exact ⟨BranchType.Remote, rb, nameOpt, he⟩
          | error u => rw [hr] at h; simp at h
    obtain ⟨bt, rb, nameOpt, rfl⟩ := shape
    exact mk_item_gone_imp bt rb nameOpt hg
  · intro rb name hcfg hne
    constructor
    · simp [is_gone_of, hcfg]
    · cases hu : rb.upstreamRes with
      | ok u =>
        cases u
        exact absurd hu hne
      | error e => simp [has_upstream_of, hu]

theorem gone_implies_no_upstream_witness :
    item_gone.has_upstream = false ∧
    is_gone_of (plain_raw "feature-x") [] = false ∧
    has_upstream_of (plain_raw "feature-x") = false := by
  have h1 := gone_implies_no_upstream.1 repo_gone BranchQuery.Local item_gone
    (by decide) (by decide)
  have h2 := gone_implies_no_upstream.2 (plain_raw "feature-x") [] (by decide) (by decide)
  exact ⟨h1, h2.1, h2.2⟩

/-- Claim C9: the resolver's public operation propagates no error.  A
failed ref enumeration for the queried scope yields the empty sequence
(under `LocalAndRemote`, both enumerations failing does), and a branch
whose commit resolution failed is still emitted — with empty `oid` and
`summary` — while the rest of the listing continues. -/
theorem resolver_error_policy :
    (∀ repo : RepoModel, repo.localRes = Except.error () →
      query_branches repo BranchQuery.Local = []) ∧
    (∀ repo : RepoModel, repo.remoteRes = Except.error () →
      query_branches repo BranchQuery.Remote = []) ∧
    (∀ repo : RepoModel, repo.localRes = Except.error () →
      repo.remoteRes = Except.error () →
      query_branches repo BranchQuery.LocalAndRemote = []) ∧
    (∀ (bt : BranchType) (rb : RawBranch) (rest : List (Except Unit RawBranch))
      (nameOpt : Option (List Char)),
      rb.nameRes = Except.ok nameOpt → rb.commitRes = none →
      parse_branches (Except.ok rb :: rest) bt
        = mk_branch_item bt rb nameOpt :: parse_branches rest bt ∧
      (mk_branch_item bt rb nameOpt).oid = [] ∧
      (mk_branch_item bt rb nameOpt).summary = []) := by
  refine ⟨?_, ?_, ?_, ?_⟩
  · intro repo h
    simp [query_branches, h]
  · intro repo h
    simp [query_branches, h]
  · intro repo h1 h2
    simp [query_branches, h1, h2]
  · intro bt rb rest nameOpt hname hcommit
    refine ⟨by simp [parse_branches, hname], ?_, ?_⟩
    · show (match rb.commitRes with | some c => c.id | none => []) = []
      rw [hcommit]
    · show (match rb.commitRes with | some c => c.summary.getD [] | none => []) = []
      rw [hcommit]

theorem resolver_error_policy_witness :
    query_branches { localRes := Except.error (), remoteRes := Except.error () }
      BranchQuery.Local = [] ∧
    parse_branches [Except.ok (plain_raw "feature-x")] BranchType.Local
      = [mk_branch_item BranchType.Local (plain_raw "feature-x") (some "feature-x".toList)] ∧
    (mk_branch_item BranchType.Local (plain_raw "feature-x") (some "feature-x".toList)).oid
      = [] := by
  have h := resolver_error_policy.2.2.2 BranchType.Local (plain_raw "feature-x") []
    (some ("feature-x".toList)) rfl rfl
  exact ⟨resolver_error_policy.1 _ rfl, h.1, h.2.1⟩

/-- Claim C10: `checkout_branch` resolves its argument among local branches
only; for a name with no local branch — in particular a remote-scoped entry
`"<remote>/<short-name>"` — it returns the `find_branch` error before any
working-tree or head mutation, so the repository state comes back
unchanged. -/
theorem checkout_unknown_name_is_error :
    ∀ (repo : GitRepo) (name : List Char),
      repo.locals.lookup name = none →
      checkout_branch repo name = (Except.error (), repo) := by
  intro repo name h
  simp [checkout_branch, find_branch, h]

theorem checkout_unknown_name_is_error_witness :
    checkout_branch demo_git_repo ("origin/main".toList)
      = (Except.error (), demo_git_repo) :=
  checkout_unknown_name_is_error demo_git_repo ("origin/main".toList) (by decide)

end Gix
